import Mathlib

/-
Verification of the three-stage cache pipeline's core components:
the progress-tracking ledger (progress.py), the watcher's stability
check and the uploader's request construction (pipeline.py), and the
archive extraction guard (compression.py).

Modelling conventions: Python ints are `ℤ` (frame numbers, sizes) or
`ℕ` (batch ids, which are always positive); Python floats are exact
rationals `ℚ` (every float operation used by the modelled code is
division, multiplication, comparison or min/max of finitely many
values, which the rational model reflects order-faithfully); the
Python dict `batches` is an association list with unique keys in
insertion order; Python sets of ints are `Finset ℤ`.
-/

namespace Calculations

/-- Batch lifecycle status, from `BatchInfo.status` in progress.py
(`pending | compressing | uploading | confirmed | failed`). -/
inductive Status where
  | pending
  | compressing
  | uploading
  | confirmed
  | failed
deriving DecidableEq

/-- Mirror of the `BatchInfo` dataclass in progress.py. -/
structure BatchInfo where
  batch_id : ℕ
  frames : List ℤ
  compressed_size : ℤ := 0
  raw_size : ℤ := 0
  r2_key : String := ""
  upload_duration : ℚ := 0
  status : Status := Status.pending
deriving DecidableEq

/-- Mirror of the mutable state of `ProgressTracker` in progress.py. -/
structure TrackerState where
  total_frames : ℤ
  baked_frames : Finset ℤ
  compressed_frames : Finset ℤ
  secured_frames : Finset ℤ
  batches : List (ℕ × BatchInfo)
  next_batch_id : ℕ
  upload_speed_bps : ℚ
  compression_ratio : ℚ
  baking_speed_fps : ℚ
  bake_count_window : List ℚ
  last_bake_time : ℚ
deriving DecidableEq

/-- `ProgressTracker.__init__`: `secured_frames` is seeded from
`already_secured`; everything else starts empty/default
(`compression_ratio` starts at 4.0, `_next_batch_id` at 1). -/
def init_tracker (total_frames : ℤ) (already_secured : Finset ℤ) (t0 : ℚ) : TrackerState :=
  { total_frames := total_frames
    baked_frames := ∅
    compressed_frames := ∅
    secured_frames := already_secured
    batches := []
    next_batch_id := 1
    upload_speed_bps := 0
    compression_ratio := 4
    baking_speed_fps := 0
    bake_count_window := []
    last_bake_time := t0 }

/-- `ProgressTracker.register_baked_frame`, with the wall-clock reading
`time.time()` made an explicit argument `now`. -/
def register_baked_frame (s : TrackerState) (frame : ℤ) (now : ℚ) : TrackerState :=
  let w := (s.bake_count_window ++ [now]).filter (fun t => now - 5 < t)
  let speed :=
    if 2 ≤ w.length then
      let elapsed := w.getLastD 0 - w.headD 0
      if 0 < elapsed then ((w.length : ℚ) - 1) / elapsed else s.baking_speed_fps
    else s.baking_speed_fps
  { s with
    baked_frames := insert frame s.baked_frames
    bake_count_window := w
    baking_speed_fps := speed }

/-- `ProgressTracker.create_batch`: allocates the next id, stores the
record with status `compressing`, increments the counter, and returns
the created record. -/
def create_batch (s : TrackerState) (frames : List ℤ) : TrackerState × BatchInfo :=
  let b : BatchInfo := { batch_id := s.next_batch_id, frames := frames, status := Status.compressing }
  ({ s with
     batches := s.batches ++ [(s.next_batch_id, b)]
     next_batch_id := s.next_batch_id + 1 }, b)

/-- In-place mutation of the record stored under key `id` in the Python
dict, rendered on the association list. -/
def updateBatch (l : List (ℕ × BatchInfo)) (id : ℕ) (b' : BatchInfo) : List (ℕ × BatchInfo) :=
  l.map (fun p => if p.1 = id then (p.1, b') else p)

/-- `ProgressTracker.register_compressed`: no-op on an unknown id;
otherwise records sizes, moves the batch to `uploading`, unions its
frames into `compressed_frames`, and refreshes the ratio when both
sizes are positive. -/
def register_compressed (s : TrackerState) (batch_id : ℕ) (compressed_size raw_size : ℤ) : TrackerState :=
  match List.lookup batch_id s.batches with
  | none => s
  | some b =>
    let b' : BatchInfo :=
      { b with
        compressed_size := compressed_size
        raw_size := raw_size
        status := Status.uploading }
    { s with
      batches := updateBatch s.batches batch_id b'
      compressed_frames := s.compressed_frames ∪ b.frames.toFinset
      compression_ratio :=
        if 0 < raw_size ∧ 0 < compressed_size then (raw_size : ℚ) / (compressed_size : ℚ)
        else s.compression_ratio }

/-- `ProgressTracker.register_secured`: no-op on an unknown id;
otherwise records key and duration, moves the batch to `confirmed`,
unions its frames into `secured_frames`, and refreshes the upload
speed when duration and stored compressed size are positive. -/
def register_secured (s : TrackerState) (batch_id : ℕ) (r2_key : String) (upload_duration : ℚ) : TrackerState :=
  match List.lookup batch_id s.batches with
  | none => s
  | some b =>
    let b' : BatchInfo :=
      { b with
        r2_key := r2_key
        upload_duration := upload_duration
        status := Status.confirmed }
    { s with
      batches := updateBatch s.batches batch_id b'
      secured_frames := s.secured_frames ∪ b.frames.toFinset
      upload_speed_bps :=
        if 0 < upload_duration ∧ 0 < b.compressed_size then (b.compressed_size : ℚ) / upload_duration
        else s.upload_speed_bps }

/-- `ProgressTracker.register_batch_failed`: no-op on an unknown id;
otherwise marks the batch `failed` and removes its frames from
`compressed_frames`. -/
def register_batch_failed (s : TrackerState) (batch_id : ℕ) : TrackerState :=
  match List.lookup batch_id s.batches with
  | none => s
  | some b =>
    { s with
      batches := updateBatch s.batches batch_id { b with status := Status.failed }
      compressed_frames := s.compressed_frames \ b.frames.toFinset }

/-- `ProgressTracker.baked_percent`. -/
def baked_percent (s : TrackerState) : ℚ :=
  if s.total_frames ≤ 0 then 0
  else min 100 ((s.baked_frames.card : ℚ) / (s.total_frames : ℚ) * 100)

/-- `ProgressTracker.compressed_percent`. -/
def compressed_percent (s : TrackerState) : ℚ :=
  if s.total_frames ≤ 0 then 0
  else min 100 ((s.compressed_frames.card : ℚ) / (s.total_frames : ℚ) * 100)

/-- `ProgressTracker.secured_percent`. -/
def secured_percent (s : TrackerState) : ℚ :=
  if s.total_frames ≤ 0 then 0
  else min 100 ((s.secured_frames.card : ℚ) / (s.total_frames : ℚ) * 100)

/-- The ledger mutators, as an operation alphabet for traces. -/
inductive Op where
  | regBakedFrame (frame : ℤ) (now : ℚ)
  | createBatch (frames : List ℤ)
  | regCompressed (batch_id : ℕ) (compressed_size raw_size : ℤ)
  | regSecured (batch_id : ℕ) (r2_key : String) (upload_duration : ℚ)
  | regBatchFailed (batch_id : ℕ)
deriving DecidableEq

/-- One ledger operation applied to a state. -/
def step (s : TrackerState) : Op → TrackerState
  | Op.regBakedFrame f now => register_baked_frame s f now
  | Op.createBatch frames => (create_batch s frames).1
  | Op.regCompressed id c r => register_compressed s id c r
  | Op.regSecured id key dur => register_secured s id key dur
  | Op.regBatchFailed id => register_batch_failed s id

/-- A sequence of ledger operations applied in order. -/
def run (s : TrackerState) (ops : List Op) : TrackerState :=
  ops.foldl step s

/-- Status of the batch stored under `id`, if any. -/
def statusOf (s : TrackerState) (id : ℕ) : Option Status :=
  (List.lookup id s.batches).map (fun b => b.status)

/-
Configuration defaults from config.py (the environment fallbacks:
TARGET_UPLOAD_TIME 20.0, MIN/MAX/DEFAULT batch size 5/50/10).
-/

namespace Config

def TARGET_UPLOAD_TIME : ℚ := 20

def MIN_BATCH_SIZE : ℤ := 5

def MAX_BATCH_SIZE : ℤ := 50

def DEFAULT_BATCH_SIZE : ℤ := 10

end Config

/-- Python `int()` applied to a float: truncation toward zero,
rendered on `ℚ`. -/
def pyInt (q : ℚ) : ℤ :=
  if 0 ≤ q then ⌊q⌋ else ⌈q⌉

/-- The confirmed-batch list filtered exactly as in
`BatchCompressor.update_batch_size`: status `confirmed` and a
non-empty frame list. -/
def confirmed_batches (s : TrackerState) : List (ℕ × BatchInfo) :=
  s.batches.filter (fun p => decide (p.2.status = Status.confirmed) && decide (0 < p.2.frames.length))

/-- Mean raw bytes per frame over the confirmed batches
(`avg_raw` in `BatchCompressor.update_batch_size`). -/
def avg_raw_per_frame (s : TrackerState) : ℚ :=
  ((confirmed_batches s).map (fun p => (p.2.raw_size : ℚ) / (p.2.frames.length : ℚ))).sum
    / ((confirmed_batches s).length : ℚ)

/-- `BatchCompressor.update_batch_size`: returns the new value of
`self.batch_size` computed from the tracker's metrics, leaving it
unchanged on any early return of the source. -/
def update_batch_size (s : TrackerState) (batch_size : ℤ) : ℤ :=
  let speed := s.upload_speed_bps
  let ratio := s.compression_ratio
  if speed ≤ 0 ∨ ratio ≤ 0 then batch_size
  else if confirmed_batches s = [] then batch_size
  else if avg_raw_per_frame s ≤ 0 then batch_size
  else
    let compressed_per_frame := avg_raw_per_frame s / ratio
    let optimal := speed * Config.TARGET_UPLOAD_TIME / compressed_per_frame
    max Config.MIN_BATCH_SIZE (min Config.MAX_BATCH_SIZE (pyInt optimal))

/-
The watcher's stability check, `FrameWatcher._wait_stable`.  The
sequence of `path.stat().st_size` results obtained inside the polling
window is made an explicit list: `some sz` is a successful `stat`
returning size `sz`, `none` is an `OSError`.  The list length is the
number of polls the time budget allowed.
-/

/-- The polling loop of `_wait_stable`, threading `last_size`.  A
repeat of the previous positive size returns `True`; an `OSError`
returns `False`; an exhausted window falls through to the source's
final `return last_size > 0`. -/
def waitStableGo : ℤ → List (Option ℤ) → Bool
  | last, [] => decide (0 < last)
  | _, none :: _ => false
  | last, some size :: rest =>
    if size = last ∧ 0 < size then true else waitStableGo size rest

/-- `FrameWatcher._wait_stable` on a given observation sequence:
`last_size` starts at `-1`. -/
def waitStable (obs : List (Option ℤ)) : Bool :=
  waitStableGo (-1) obs

/-- Spec-side predicate: some two consecutive observations both
succeeded with the same positive size. -/
def hasStablePair (obs : List (Option ℤ)) : Bool :=
  (obs.zip obs.tail).any (fun q =>
    match q with
    | (some a, some b) => decide (a = b) && decide (0 < a)
    | _ => false)

/-- Spec-side predicate: the final observation succeeded with a
positive size. -/
def lastObservedPositive (obs : List (Option ℤ)) : Bool :=
  match obs.getLast? with
  | some (some sz) => decide (0 < sz)
  | _ => false

/-
The uploader's object-store requests (`BatchUploader` in
pipeline.py).  The boto3 calls are modelled as request values; the
body of a PUT is either fully materialized bytes or a streaming
handle, and the request alphabet includes the multipart calls so that
their absence is expressible.
-/

/-- A PUT body: the source always passes a `bytes` value, never a file
object. -/
inductive PutBody where
  | bytes (data : List ℕ)
  | stream
deriving DecidableEq

/-- Arguments of an `s3.put_object` call. -/
structure PutObjectArgs where
  bucket : String
  key : String
  body : PutBody
  contentLength : ℕ
  contentType : String
  metadata : List (String × String)
deriving DecidableEq

/-- The S3 request alphabet used (or avoidable) by the uploader. -/
inductive S3Request where
  | putObject (args : PutObjectArgs)
  | headObject (bucket key : String)
  | createMultipart (bucket key : String)
  | uploadPart (bucket key : String) (partNumber : ℕ)
deriving DecidableEq

/-- Python `f"{n:04d}"` for a natural number. -/
def pad4 (n : ℕ) : String :=
  let s := toString n
  String.mk (List.replicate (4 - s.length) '0') ++ s

/-- The request sequence of `BatchUploader._upload_batch` on the happy
path: one single-part `put_object` with `Body` the fully read file
bytes, `ContentLength` its exact length, octet-stream content type and
the three user-metadata fields, followed by the confirming
`head_object`. -/
def upload_batch_requests (bucket pre : String) (batch_id : ℕ) (data : List ℕ) (frames : List ℤ) : List S3Request :=
  let key := pre ++ "batch_" ++ pad4 batch_id ++ ".tar.zst"
  [ S3Request.putObject
      { bucket := bucket
        key := key
        body := PutBody.bytes data
        contentLength := data.length
        contentType := "application/octet-stream"
        metadata :=
          [("batch_id", toString batch_id),
           ("frames", String.intercalate "," (frames.map toString)),
           ("frame_count", toString frames.length)] },
    S3Request.headObject bucket key ]

/-- The request sequence of `BatchUploader.upload_dict`: one
single-part `put_object` of the dictionary bytes with exact
`ContentLength`. -/
def upload_dict_requests (bucket pre : String) (dict_bytes : List ℕ) : List S3Request :=
  [ S3Request.putObject
      { bucket := bucket
        key := pre ++ "dictionary.zstd"
        body := PutBody.bytes dict_bytes
        contentLength := dict_bytes.length
        contentType := "application/octet-stream"
        metadata := [("type", "zstd-dictionary")] } ]

/-
Archive extraction during resume (`decompress_batch` in
compression.py).  The zstd and tar codecs are external library calls;
what the source implements is the member loop, modelled here on the
member list of the decoded archive.
-/

/-- A tar archive member: its stored path and whether it is a regular
file (`member.isfile()`). -/
structure TarMember where
  name : String
  isFile : Bool
deriving DecidableEq

/-- The guard of `decompress_batch`: a member path containing `..` or
starting with `/` is suspect. -/
def suspectPath (nm : String) : Bool :=
  decide ("..".toList <:+: nm.toList) || decide ("/".toList <+: nm.toList)

/-- The member loop of `decompress_batch`: regular files with safe
relative paths are extracted under `output_dir` and collected;
suspect paths are skipped; non-file members are not extracted by this
loop. -/
def decompress_batch_extract (members : List TarMember) (output_dir : String) : List String :=
  match members with
  | [] => []
  | m :: rest =>
    if m.isFile then
      if suspectPath m.name then decompress_batch_extract rest output_dir
      else (output_dir ++ "/" ++ m.name) :: decompress_batch_extract rest output_dir
    else decompress_batch_extract rest output_dir

/-
Helper lemmas about association lists and the batch-table update.
-/

lemma lookup_cons_ne {β : Type} {t : List (ℕ × β)} {k k' : ℕ} {b' : β} (h : k ≠ k') :
    List.lookup k ((k', b') :: t) = List.lookup k t := by
  have hb : (k == k') = false := beq_eq_false_iff_ne.2 h
  simp [List.lookup, hb]

lemma lookup_cons_self {β : Type} {t : List (ℕ × β)} {k : ℕ} {b' : β} :
    List.lookup k ((k, b') :: t) = some b' := by
  simp [List.lookup]

lemma mem_of_lookup_eq_some : ∀ {l : List (ℕ × BatchInfo)} {k : ℕ} {b : BatchInfo},
    List.lookup k l = some b → (k, b) ∈ l := by
  intro l
  induction l with
  | nil => intro k b h; simp [List.lookup] at h
  | cons p t ih =>
    intro k b h
    obtain ⟨k', b'⟩ := p
    by_cases hk : k = k'
    · subst hk
      rw [lookup_cons_self] at h
      obtain rfl := Option.some.inj h
      exact List.mem_cons_self _ _
    · rw [lookup_cons_ne hk] at h
      exact List.mem_cons_of_mem _ (ih h)

lemma lookup_eq_some_of_mem_nodup : ∀ {l : List (ℕ × BatchInfo)},
    (l.map Prod.fst).Nodup → ∀ {k : ℕ} {b : BatchInfo}, (k, b) ∈ l → List.lookup k l = some b := by
  intro l
  induction l with
  | nil => intro _ k b h; simp at h
  | cons p t ih =>
    intro hnd k b h
    obtain ⟨k', b'⟩ := p
    simp only [List.map_cons, List.nodup_cons] at hnd
    rcases List.mem_cons.1 h with h1 | h1
    · obtain ⟨rfl, rfl⟩ := Prod.mk.injEq .. ▸ h1
      exact lookup_cons_self
    · have hne : k ≠ k' := by
        rintro rfl
        exact hnd.1 (List.mem_map.2 ⟨(k, b), h1, rfl⟩)
      rw [lookup_cons_ne hne]
      exact ih hnd.2 h1

lemma lookup_append_left {l l' : List (ℕ × BatchInfo)} {k : ℕ} {b : BatchInfo}
    (h : List.lookup k l = some b) : List.lookup k (l ++ l') = some b := by
  induction l with
  | nil => simp [List.lookup] at h
  | cons p t ih =>
    obtain ⟨k', b'⟩ := p
    by_cases hk : k = k'
    · subst hk
      rw [lookup_cons_self] at h
      rw [List.cons_append, lookup_cons_self]
      exact h
    · rw [lookup_cons_ne hk] at h
      rw [List.cons_append, lookup_cons_ne hk]
      exact ih h

lemma keys_updateBatch (id : ℕ) (b' : BatchInfo) :
    ∀ l : List (ℕ × BatchInfo), (updateBatch l id b').map Prod.fst = l.map Prod.fst := by
  intro l
  induction l with
  | nil => rfl
  | cons p t ih =>
    by_cases h : p.1 = id <;> simp [updateBatch, h] at ih ⊢ <;> exact ih

lemma mem_updateBatch {l : List (ℕ × BatchInfo)} {id : ℕ} {b' : BatchInfo} {p : ℕ × BatchInfo}
    (hp : p ∈ updateBatch l id b') :
    ∃ q ∈ l, (q.1 = id ∧ p = (id, b')) ∨ (q.1 ≠ id ∧ p = q) := by
  rcases List.mem_map.1 hp with ⟨q, hq, rfl⟩
  refine ⟨q, hq, ?_⟩
  by_cases h : q.1 = id
  · exact Or.inl ⟨h, by simp [h]⟩
  · exact Or.inr ⟨h, by simp [h]⟩

lemma mem_updateBatch_of_ne {l : List (ℕ × BatchInfo)} {id : ℕ} {b' : BatchInfo}
    {q : ℕ × BatchInfo} (hq : q ∈ l) (h : q.1 ≠ id) : q ∈ updateBatch l id b' :=
  List.mem_map.2 ⟨q, hq, by simp [h]⟩

lemma mem_updateBatch_self {l : List (ℕ × BatchInfo)} {id : ℕ} {b' : BatchInfo}
    {q : ℕ × BatchInfo} (hq : q ∈ l) (h : q.1 = id) : (id, b') ∈ updateBatch l id b' :=
  List.mem_map.2 ⟨q, hq, by simp [h]⟩

lemma updateBatch_cons {t : List (ℕ × BatchInfo)} {k' : ℕ} {c : BatchInfo} {id : ℕ}
    {b' : BatchInfo} :
    updateBatch ((k', c) :: t) id b' =
      (if k' = id then (k', b') else (k', c)) :: updateBatch t id b' := rfl

lemma lookup_updateBatch_ne {l : List (ℕ × BatchInfo)} {j k : ℕ} {b' : BatchInfo} (h : j ≠ k) :
    List.lookup k (updateBatch l j b') = List.lookup k l := by
  induction l with
  | nil => rfl
  | cons p t ih =>
    obtain ⟨k', c⟩ := p
    rw [updateBatch_cons]
    by_cases hj : k' = j
    · subst hj
      have hk : k ≠ k' := fun hh => h hh.symm
      rw [if_pos rfl, lookup_cons_ne hk, lookup_cons_ne hk]
      exact ih
    · rw [if_neg hj]
      by_cases hk : k = k'
      · subst hk
        rw [lookup_cons_self, lookup_cons_self]
      · rw [lookup_cons_ne hk, lookup_cons_ne hk]
        exact ih

lemma lookup_updateBatch_self {l : List (ℕ × BatchInfo)} {k : ℕ} {b b' : BatchInfo}
    (h : List.lookup k l = some b) :
    List.lookup k (updateBatch l k b') = some b' := by
  induction l with
  | nil => simp [List.lookup] at h
  | cons p t ih =>
    obtain ⟨k', c⟩ := p
    rw [updateBatch_cons]
    by_cases hk : k = k'
    · subst hk
      rw [if_pos rfl, lookup_cons_self]
    · rw [lookup_cons_ne hk] at h
      rw [if_neg (fun hh => hk hh.symm), lookup_cons_ne hk]
      exact ih h

lemma string_append_cancel_left {a b c : String} (h : a ++ b = a ++ c) : b = c := by
  have h2 : a.data ++ b.data = a.data ++ c.data := congrArg String.data h
  have h3 : b.data = c.data := List.append_cancel_left h2
  cases b
  cases c
  exact congrArg String.mk h3

lemma percent_bound (total : ℤ) (c : ℕ) :
    0 ≤ (if total ≤ 0 then (0 : ℚ) else min 100 ((c : ℚ) / (total : ℚ) * 100)) ∧
      (if total ≤ 0 then (0 : ℚ) else min 100 ((c : ℚ) / (total : ℚ) * 100)) ≤ 100 := by
  split
  · norm_num
  · rename_i ht
    have htq : (0 : ℚ) < (total : ℚ) := by
      exact_mod_cast lt_of_not_le ht
    constructor
    · refine le_min (by norm_num) ?_
      have : (0 : ℚ) ≤ (c : ℚ) / (total : ℚ) := div_nonneg (by positivity) htq.le
      nlinarith
    · exact min_le_left _ _

/-- C9: for every tracker state (any `total_frames`, including zero or
negative, and any contents of the three frame sets) the accessors
`baked_percent`, `compressed_percent` and `secured_percent` each lie
in the closed interval `[0, 100]`. -/
theorem percent_accessors_bounded (s : TrackerState) :
    (0 ≤ baked_percent s ∧ baked_percent s ≤ 100) ∧
      (0 ≤ compressed_percent s ∧ compressed_percent s ≤ 100) ∧
      (0 ≤ secured_percent s ∧ secured_percent s ≤ 100) :=
  ⟨percent_bound s.total_frames s.baked_frames.card,
    percent_bound s.total_frames s.compressed_frames.card,
    percent_bound s.total_frames s.secured_frames.card⟩

/-- C10: calling `register_compressed`, `register_secured` or
`register_batch_failed` with a batch id absent from the batch table is
a complete no-op: the whole tracker state (frame sets, batch table,
metrics) is returned unchanged. -/
theorem unknown_batch_id_noop (s : TrackerState) (id : ℕ) (c r : ℤ) (key : String) (dur : ℚ)
    (h : List.lookup id s.batches = none) :
    register_compressed s id c r = s ∧ register_secured s id key dur = s ∧
      register_batch_failed s id = s := by
  refine ⟨?_, ?_, ?_⟩ <;>
    simp [register_compressed, register_secured, register_batch_failed, h]

/-- Witness for C10 at a concrete tracker state with an empty batch
table and the unknown id 3. -/
theorem unknown_batch_id_noop_demo :
    register_compressed (init_tracker 250 ∅ 0) 3 1 1 = init_tracker 250 ∅ 0 ∧
      register_secured (init_tracker 250 ∅ 0) 3 "k" 1 = init_tracker 250 ∅ 0 ∧
      register_batch_failed (init_tracker 250 ∅ 0) 3 = init_tracker 250 ∅ 0 :=
  unknown_batch_id_noop (init_tracker 250 ∅ 0) 3 1 1 "k" 1 rfl

/-- C5: immediately after `register_batch_failed id` on a state whose
batch table contains `id`, the batch's status is `failed` and none of
its frames remains in `compressed_frames`. -/
theorem register_batch_failed_rollback (s : TrackerState) (id : ℕ) (b : BatchInfo)
    (h : List.lookup id s.batches = some b) :
    statusOf (register_batch_failed s id) id = some Status.failed ∧
      ∀ f ∈ b.frames, f ∉ (register_batch_failed s id).compressed_frames := by
  constructor
  · simp only [register_batch_failed, h, statusOf]
    rw [lookup_updateBatch_self h]
    rfl
  · intro f hf
    simp only [register_batch_failed, h]
    simp [Finset.mem_sdiff, List.mem_toFinset, hf]

/-- Witness for C5: failing batch 1 of a concrete tracker holding
frames 1 and 2 marks it failed and leaves neither frame compressed. -/
theorem register_batch_failed_rollback_demo :
    statusOf (register_batch_failed (create_batch (init_tracker 9 ∅ 0) [1, 2]).1 1) 1 =
        some Status.failed ∧
      ∀ f ∈ ([1, 2] : List ℤ),
        f ∉ (register_batch_failed (create_batch (init_tracker 9 ∅ 0) [1, 2]).1 1).compressed_frames :=
  register_batch_failed_rollback (create_batch (init_tracker 9 ∅ 0) [1, 2]).1 1
    { batch_id := 1, frames := [1, 2], status := Status.compressing } rfl

/-- C4: every `put_object` issued by the uploader (batch upload and
dictionary upload) has a fully materialized byte-string body whose
length equals the explicit `ContentLength`, content type
`application/octet-stream`, and — for batch PUTs — the user metadata
`batch_id`, `frames` (comma-joined) and `frame_count`; no multipart
request (`create_multipart_upload` / `upload_part`) is ever issued. -/
theorem uploader_put_requests_exact_length (bucket pre : String) (batch_id : ℕ)
    (data : List ℕ) (frames : List ℤ) (dict_bytes : List ℕ) :
    (∀ a, S3Request.putObject a ∈ upload_batch_requests bucket pre batch_id data frames →
      a.body = PutBody.bytes data ∧ a.contentLength = data.length ∧
        a.contentType = "application/octet-stream" ∧
        a.metadata = [("batch_id", toString batch_id),
          ("frames", String.intercalate "," (frames.map toString)),
          ("frame_count", toString frames.length)]) ∧
      (∀ a, S3Request.putObject a ∈ upload_dict_requests bucket pre dict_bytes →
        a.body = PutBody.bytes dict_bytes ∧ a.contentLength = dict_bytes.length ∧
          a.contentType = "application/octet-stream") ∧
      (∀ bk k, S3Request.createMultipart bk k ∉ upload_batch_requests bucket pre batch_id data frames ∧
        S3Request.createMultipart bk k ∉ upload_dict_requests bucket pre dict_bytes) ∧
      (∀ bk k n, S3Request.uploadPart bk k n ∉ upload_batch_requests bucket pre batch_id data frames ∧
        S3Request.uploadPart bk k n ∉ upload_dict_requests bucket pre dict_bytes) := by
  refine ⟨?_, ?_, ?_, ?_⟩
  · intro a ha
    simp only [upload_batch_requests, List.mem_cons, List.not_mem_nil, or_false] at ha
    rcases ha with ha | ha
    · obtain rfl := S3Request.putObject.inj ha
      exact ⟨rfl, rfl, rfl, rfl⟩
    · exact absurd ha (by simp)
  · intro a ha
    simp only [upload_dict_requests, List.mem_cons, List.not_mem_nil, or_false] at ha
    obtain rfl := S3Request.putObject.inj ha
    exact ⟨rfl, rfl, rfl⟩
  · intro bk k
    constructor <;> simp [upload_batch_requests, upload_dict_requests]
  · intro bk k n
    constructor <;> simp [upload_batch_requests, upload_dict_requests]

/-- Witness for C4: the concrete batch PUT for batch 7, bytes
`[1,2,3]` and frames `[4,5]` carries length 3 and the three metadata
fields. -/
theorem uploader_put_requests_demo :
    ({ bucket := "b", key := "cache/batch_0007.tar.zst", body := PutBody.bytes [1, 2, 3],
        contentLength := 3, contentType := "application/octet-stream",
        metadata := [("batch_id", "7"), ("frames", "4,5"), ("frame_count", "2")] } :
          PutObjectArgs).body = PutBody.bytes [1, 2, 3] ∧
      ({ bucket := "b", key := "cache/batch_0007.tar.zst", body := PutBody.bytes [1, 2, 3],
          contentLength := 3, contentType := "application/octet-stream",
          metadata := [("batch_id", "7"), ("frames", "4,5"), ("frame_count", "2")] } :
            PutObjectArgs).contentLength = ([1, 2, 3] : List ℕ).length ∧
      ({ bucket := "b", key := "cache/batch_0007.tar.zst", body := PutBody.bytes [1, 2, 3],
          contentLength := 3, contentType := "application/octet-stream",
          metadata := [("batch_id", "7"), ("frames", "4,5"), ("frame_count", "2")] } :
            PutObjectArgs).contentType = "application/octet-stream" ∧
      ({ bucket := "b", key := "cache/batch_0007.tar.zst", body := PutBody.bytes [1, 2, 3],
          contentLength := 3, contentType := "application/octet-stream",
          metadata := [("batch_id", "7"), ("frames", "4,5"), ("frame_count", "2")] } :
            PutObjectArgs).metadata = [("batch_id", toString (7 : ℕ)),
              ("frames", String.intercalate "," (([4, 5] : List ℤ).map toString)),
              ("frame_count", toString ([4, 5] : List ℤ).length)] :=
  (uploader_put_requests_exact_length "b" "cache/" 7 [1, 2, 3] [4, 5] [9]).1 _ (by decide)

/-- C6: during resume extraction, any member path containing `..` or
absolute never contributes to the extracted-file list (no safe member
can collide with it either, since the output path determines the
member name), while every regular-file member with a safe relative
path is extracted under the output directory. -/
theorem decompress_refuses_traversal_members (members : List TarMember) (dir : String) :
    (∀ nm : String, suspectPath nm = true →
        (dir ++ "/" ++ nm) ∉ decompress_batch_extract members dir) ∧
      (∀ m ∈ members, m.isFile = true → suspectPath m.name = false →
        (dir ++ "/" ++ m.name) ∈ decompress_batch_extract members dir) := by
  induction members with
  | nil =>
    exact ⟨fun nm _ h => by simp [decompress_batch_extract] at h, fun m hm => by simp at hm⟩
  | cons m0 rest ih =>
    obtain ⟨ih1, ih2⟩ := ih
    by_cases hf : m0.isFile
    · by_cases hs : suspectPath m0.name
      · refine ⟨?_, ?_⟩
        · intro nm hnm
          simp only [decompress_batch_extract, if_pos hf, if_pos hs]
          exact ih1 nm hnm
        · intro m hm hmf hms
          rcases List.mem_cons.1 hm with rfl | hm
          · rw [hs] at hms
            exact absurd hms (by simp)
          · simp only [decompress_batch_extract, if_pos hf, if_pos hs]
            exact ih2 m hm hmf hms
      · refine ⟨?_, ?_⟩
        · intro nm hnm hmem
          simp only [decompress_batch_extract, if_pos hf, if_neg hs, List.mem_cons] at hmem
          rcases hmem with hmem | hmem
          · have hname : nm = m0.name := by
              have : "/" ++ nm = "/" ++ m0.name :=
                string_append_cancel_left ((String.append_assoc ..).symm.trans
                  (hmem.trans (String.append_assoc ..)))
              exact string_append_cancel_left this
            rw [hname] at hnm
            rw [hnm] at hs
            exact hs rfl
          · exact ih1 nm hnm hmem
        · intro m hm hmf hms
          simp only [decompress_batch_extract, if_pos hf, if_neg hs, List.mem_cons]
          rcases List.mem_cons.1 hm with rfl | hm
          · exact Or.inl rfl
          · exact Or.inr (ih2 m hm hmf hms)
    · refine ⟨?_, ?_⟩
      · intro nm hnm
        simp only [decompress_batch_extract, if_neg hf]
        exact ih1 nm hnm
      · intro m hm hmf hms
        rcases List.mem_cons.1 hm with rfl | hm
        · exact absurd hmf hf
        · simp only [decompress_batch_extract, if_neg hf]
          exact ih2 m hm hmf hms

/-- Witness for C6: on a concrete archive, the traversal member
`../evil` and the absolute member `/abs` are refused while the safe
member `a/b.bphys` is extracted. -/
theorem decompress_refuses_traversal_demo :
    ("out" ++ "/" ++ "../evil") ∉
        decompress_batch_extract
          [{ name := "a/b.bphys", isFile := true }, { name := "../evil", isFile := true },
            { name := "/abs", isFile := true }] "out" ∧
      ("out" ++ "/" ++ "a/b.bphys") ∈
        decompress_batch_extract
          [{ name := "a/b.bphys", isFile := true }, { name := "../evil", isFile := true },
            { name := "/abs", isFile := true }] "out" :=
  ⟨(decompress_refuses_traversal_members
      [{ name := "a/b.bphys", isFile := true }, { name := "../evil", isFile := true },
        { name := "/abs", isFile := true }] "out").1 "../evil" (by decide),
    (decompress_refuses_traversal_members
      [{ name := "a/b.bphys", isFile := true }, { name := "../evil", isFile := true },
        { name := "/abs", isFile := true }] "out").2
      { name := "a/b.bphys", isFile := true } (by decide) rfl (by decide)⟩

lemma hasStablePair_cons_cons (x y : Option ℤ) (t : List (Option ℤ)) :
    hasStablePair (x :: y :: t) =
      (((fun q : Option ℤ × Option ℤ =>
          match q with
          | (some a, some b) => decide (a = b) && decide (0 < a)
          | _ => false) (x, y)) || hasStablePair (y :: t)) := rfl

lemma waitStableGo_true_forward :
    ∀ (rest : List (Option ℤ)) (s : ℤ), waitStableGo s rest = true →
      hasStablePair (some s :: rest) = true ∨
        (rest.all Option.isSome = true ∧ lastObservedPositive (some s :: rest) = true) := by
  intro rest
  induction rest with
  | nil =>
    intro s h
    simp only [waitStableGo, decide_eq_true_eq] at h
    exact Or.inr ⟨rfl, by simp [lastObservedPositive, h]⟩
  | cons o t ih =>
    intro s h
    cases o with
    | none => simp [waitStableGo] at h
    | some s' =>
      rw [waitStableGo] at h
      split at h
      · rename_i hcond
        obtain ⟨rfl, hpos⟩ := hcond
        left
        rw [hasStablePair_cons_cons]
        simp [hpos]
      · rcases ih s' h with h1 | ⟨h1, h2⟩
        · left
          rw [hasStablePair_cons_cons, h1]
          simp
        · right
          refine ⟨by simp [h1], ?_⟩
          simpa [lastObservedPositive, List.getLast?_cons_cons] using h2

lemma waitStableGo_true_backward :
    ∀ (obs : List (Option ℤ)), obs ≠ [] → obs.all Option.isSome = true →
      lastObservedPositive obs = true → ∀ last : ℤ, waitStableGo last obs = true := by
  intro obs
  induction obs with
  | nil => intro h; exact absurd rfl h
  | cons o t ih =>
    intro _ hall hlast last
    cases o with
    | none => simp at hall
    | some s =>
      rw [waitStableGo]
      split
      · rfl
      · cases t with
        | nil =>
          simp only [lastObservedPositive, List.getLast?_singleton] at hlast
          simp only [waitStableGo]
          exact hlast
        | cons o' t' =>
          have hall' : (o' :: t').all Option.isSome = true := by
            simp only [List.all_cons, Bool.and_eq_true] at hall ⊢
            exact hall.2
          have hlast' : lastObservedPositive (o' :: t') = true := by
            simpa [lastObservedPositive, List.getLast?_cons_cons] using hlast
          exact ih (by simp) hall' hlast' s

/-- C3 (amended): `_wait_stable` returns `True` only when either two
consecutive observations are equal and positive, or the whole polling
window is exhausted with every `stat` succeeding and the last observed
size positive (the source's trailing `return last_size > 0`); and in
the latter situation it does return `True`. -/
theorem wait_stable_characterization (obs : List (Option ℤ)) :
    (waitStable obs = true →
      hasStablePair obs = true ∨
        (obs.all Option.isSome = true ∧ lastObservedPositive obs = true)) ∧
      (obs.all Option.isSome = true → lastObservedPositive obs = true → waitStable obs = true) := by
  constructor
  · intro h
    cases obs with
    | nil => simp [waitStable, waitStableGo] at h
    | cons o t =>
      cases o with
      | none => simp [waitStable, waitStableGo] at h
      | some s =>
        rw [waitStable, waitStableGo] at h
        split at h
        · rename_i hcond
          obtain ⟨rfl, hpos⟩ := hcond
          exact absurd hpos (by decide)
        · rcases waitStableGo_true_forward t s h with h1 | ⟨h1, h2⟩
          · exact Or.inl h1
          · exact Or.inr ⟨by simp [h1], h2⟩
  · intro hall hlast
    cases obs with
    | nil => simp [lastObservedPositive] at hlast
    | cons o t =>
      exact waitStableGo_true_backward (o :: t) (by simp) hall hlast (-1)

/-- Counterexample to C3 as stated: on the strictly growing
observation sequence `1, 2` the source returns `True` (via the
trailing `return last_size > 0`) although no two consecutive
observations are equal. -/
theorem wait_stable_true_without_stable_pair :
    waitStable [some 1, some 2] = true ∧ hasStablePair [some 1, some 2] = false := by decide

/-- Witness for the amended C3 at a concrete error-free observation
sequence ending on a positive size. -/
theorem wait_stable_characterization_demo :
    waitStable [some 3, some 3, some 3] = true :=
  (wait_stable_characterization [some 3, some 3, some 3]).2 (by decide) (by decide)

/-- C7: after a confirmation has produced positive metrics,
`update_batch_size` sets the batch size to the clamp into
`[MIN_BATCH_SIZE, MAX_BATCH_SIZE] = [5, 50]` of the truncated
`upload_speed_bps × TARGET_UPLOAD_TIME / (avg raw per frame /
compression_ratio)`; when no confirmed batch exists (in particular on
a fresh tracker, whose batch size starts at `DEFAULT_BATCH_SIZE =
10`) the batch size is left unchanged. -/
theorem update_batch_size_formula (s : TrackerState) (batch_size : ℤ) :
    ((∀ p ∈ s.batches, p.2.status ≠ Status.confirmed) →
      update_batch_size s batch_size = batch_size) ∧
      (0 < s.upload_speed_bps → 0 < s.compression_ratio → confirmed_batches s ≠ [] →
        0 < avg_raw_per_frame s →
        update_batch_size s batch_size =
          max Config.MIN_BATCH_SIZE (min Config.MAX_BATCH_SIZE
            (pyInt (s.upload_speed_bps * Config.TARGET_UPLOAD_TIME /
              (avg_raw_per_frame s / s.compression_ratio))))) ∧
      Config.MIN_BATCH_SIZE = 5 ∧ Config.MAX_BATCH_SIZE = 50 ∧
      Config.DEFAULT_BATCH_SIZE = 10 ∧ Config.TARGET_UPLOAD_TIME = 20 := by
  refine ⟨?_, ?_, rfl, rfl, rfl, rfl⟩
  · intro h
    have hconf : confirmed_batches s = [] := by
      rw [confirmed_batches, List.filter_eq_nil_iff]
      intro p hp
      simp [h p hp]
    simp [update_batch_size, hconf]
  · intro h1 h2 h3 h4
    rw [update_batch_size]
    rw [if_neg (by rw [not_or, not_le, not_le]; exact ⟨h1, h2⟩), if_neg h3,
      if_neg (not_le.mpr h4)]

/-- Spec scenario S2 as a tracker state: one confirmed batch of 5
frames totalling 1,000,000 raw bytes, measured upload speed 1,000,000
bytes/s and compression ratio 4. -/
def scenario_s2 : TrackerState :=
  { init_tracker 60 ∅ 0 with
    upload_speed_bps := 1000000
    compression_ratio := 4
    batches :=
      [(1,
        { batch_id := 1
          frames := [1, 2, 3, 4, 5]
          raw_size := 1000000
          status := Status.confirmed })] }

/-- Witness for C7, scenario S2 of the spec: the state of
`scenario_s2` yields target 400, clamped to 50. -/
theorem update_batch_size_scenario_s2 :
    update_batch_size scenario_s2 10 = 50 := by
  rw [(update_batch_size_formula scenario_s2 10).2.1
    (by norm_num [scenario_s2, init_tracker])
    (by norm_num [scenario_s2, init_tracker])
    (by simp [confirmed_batches, scenario_s2, init_tracker])
    (by norm_num [avg_raw_per_frame, confirmed_batches, scenario_s2, init_tracker])]
  norm_num [avg_raw_per_frame, confirmed_batches, scenario_s2, init_tracker, pyInt,
    Config.MIN_BATCH_SIZE, Config.MAX_BATCH_SIZE, Config.TARGET_UPLOAD_TIME]

/-- The discipline under which the pipeline drives the ledger: a
batch is created only from already-baked frames covered by no existing
batch; `register_compressed` targets batches in `compressing` status;
`register_secured` and `register_batch_failed` target batches in
`uploading` status (an unknown id is always allowed, the call being a
no-op). -/
def allowedOp (s : TrackerState) : Op → Bool
  | Op.regBakedFrame _ _ => true
  | Op.createBatch frames =>
    frames.all (fun f => decide (f ∈ s.baked_frames)) &&
      s.batches.all (fun p => frames.all (fun f => decide (f ∉ p.2.frames)))
  | Op.regCompressed id _ _ =>
    decide (statusOf s id = none ∨ statusOf s id = some Status.compressing)
  | Op.regSecured id _ _ =>
    decide (statusOf s id = none ∨ statusOf s id = some Status.uploading)
  | Op.regBatchFailed id =>
    decide (statusOf s id = none ∨ statusOf s id = some Status.uploading)

/-- An operation sequence respecting the discipline step by step. -/
def allowedTrace : TrackerState → List Op → Bool
  | _, [] => true
  | s, op :: ops => allowedOp s op && allowedTrace (step s op) ops

/-- The inductive invariant of the disciplined ledger: the inclusion
chain itself, plus the bookkeeping facts that make it stable — batch
frames are baked, `uploading` batches have their frames compressed,
secured frames are covered by a confirmed batch, distinct batches are
frame-disjoint, and the batch table's keys are bounded and unique. -/
structure Inv (s : TrackerState) : Prop where
  sec_sub : s.secured_frames ⊆ s.compressed_frames
  comp_sub : s.compressed_frames ⊆ s.baked_frames
  batch_baked : ∀ p ∈ s.batches, ∀ f ∈ p.2.frames, f ∈ s.baked_frames
  upl_comp : ∀ p ∈ s.batches, p.2.status = Status.uploading →
    ∀ f ∈ p.2.frames, f ∈ s.compressed_frames
  sec_cov : ∀ f ∈ s.secured_frames,
    ∃ p, p ∈ s.batches ∧ p.2.status = Status.confirmed ∧ f ∈ p.2.frames
  disj : ∀ p ∈ s.batches, ∀ q ∈ s.batches, p.1 ≠ q.1 → ∀ f ∈ p.2.frames, f ∉ q.2.frames
  id_lt : ∀ p ∈ s.batches, p.1 < s.next_batch_id
  keys_nodup : (s.batches.map Prod.fst).Nodup

lemma register_compressed_eq {s : TrackerState} {id : ℕ} {c r : ℤ} {b : BatchInfo}
    (hl : List.lookup id s.batches = some b) :
    register_compressed s id c r =
      { s with
        batches := updateBatch s.batches id
          { b with compressed_size := c, raw_size := r, status := Status.uploading }
        compressed_frames := s.compressed_frames ∪ b.frames.toFinset
        compression_ratio :=
          if 0 < r ∧ 0 < c then (r : ℚ) / (c : ℚ) else s.compression_ratio } := by
  rw [register_compressed, hl]

lemma register_secured_eq {s : TrackerState} {id : ℕ} {key : String} {dur : ℚ}
    {b : BatchInfo} (hl : List.lookup id s.batches = some b) :
    register_secured s id key dur =
      { s with
        batches := updateBatch s.batches id
          { b with r2_key := key, upload_duration := dur, status := Status.confirmed }
        secured_frames := s.secured_frames ∪ b.frames.toFinset
        upload_speed_bps :=
          if 0 < dur ∧ 0 < b.compressed_size then (b.compressed_size : ℚ) / dur
          else s.upload_speed_bps } := by
  rw [register_secured, hl]

lemma register_batch_failed_eq {s : TrackerState} {id : ℕ} {b : BatchInfo}
    (hl : List.lookup id s.batches = some b) :
    register_batch_failed s id =
      { s with
        batches := updateBatch s.batches id { b with status := Status.failed }
        compressed_frames := s.compressed_frames \ b.frames.toFinset } := by
  rw [register_batch_failed, hl]

lemma companion_in_updateBatch {l : List (ℕ × BatchInfo)} {id : ℕ} {b B' : BatchInfo}
    (hl : List.lookup id l = some b) {p : ℕ × BatchInfo} (hp : p ∈ updateBatch l id B')
    (hfr : B'.frames = b.frames) :
    ∃ p0 ∈ l, p0.1 = p.1 ∧ p0.2.frames = p.2.frames := by
  rcases mem_updateBatch hp with ⟨q, hq, ⟨hq1, rfl⟩ | ⟨hq1, rfl⟩⟩
  · exact ⟨(id, b), mem_of_lookup_eq_some hl, rfl, hfr.symm⟩
  · exact ⟨p, hq, rfl, rfl⟩

lemma key_ne_of_status_ne {s : TrackerState} (hnd : (s.batches.map Prod.fst).Nodup)
    {id : ℕ} {b : BatchInfo} (hl : List.lookup id s.batches = some b)
    {q : ℕ × BatchInfo} (hq : q ∈ s.batches) (hqs : q.2.status ≠ b.status) : q.1 ≠ id := by
  obtain ⟨qk, qb⟩ := q
  intro hk
  subst hk
  have h2 := lookup_eq_some_of_mem_nodup hnd hq
  rw [hl] at h2
  obtain rfl := Option.some.inj h2
  exact hqs rfl

lemma inv_register_baked_frame {s : TrackerState} (h : Inv s) (f : ℤ) (now : ℚ) :
    Inv (register_baked_frame s f now) := by
  refine ⟨h.sec_sub, ?_, ?_, h.upl_comp, h.sec_cov, h.disj, h.id_lt, h.keys_nodup⟩
  · exact fun x hx => Finset.mem_insert_of_mem (h.comp_sub hx)
  · exact fun p hp g hg => Finset.mem_insert_of_mem (h.batch_baked p hp g hg)

lemma inv_create_batch {s : TrackerState} (h : Inv s) {frames : List ℤ}
    (hbaked : ∀ f ∈ frames, f ∈ s.baked_frames)
    (hfresh : ∀ p ∈ s.batches, ∀ f ∈ frames, f ∉ p.2.frames) :
    Inv (create_batch s frames).1 := by
  have hb : ((create_batch s frames).1).batches =
      s.batches ++ [(s.next_batch_id,
        { batch_id := s.next_batch_id, frames := frames, status := Status.compressing })] := rfl
  constructor
  case sec_sub => exact h.sec_sub
  case comp_sub => exact h.comp_sub
  case batch_baked =>
    intro p hp f hf
    rw [hb] at hp
    rcases List.mem_append.1 hp with hp | hp
    · exact h.batch_baked p hp f hf
    · obtain rfl := List.mem_singleton.1 hp
      exact hbaked f hf
  case upl_comp =>
    intro p hp hst f hf
    rw [hb] at hp
    rcases List.mem_append.1 hp with hp | hp
    · exact h.upl_comp p hp hst f hf
    · obtain rfl := List.mem_singleton.1 hp
      exact Status.noConfusion hst
  case sec_cov =>
    intro f hf
    obtain ⟨p, hp, hc, hfp⟩ := h.sec_cov f hf
    exact ⟨p, by rw [hb]; exact List.mem_append_left _ hp, hc, hfp⟩
  case disj =>
    intro p hp q hq hne f hfp
    rw [hb] at hp hq
    rcases List.mem_append.1 hp with hp | hp <;> rcases List.mem_append.1 hq with hq | hq
    · exact h.disj p hp q hq hne f hfp
    · obtain rfl := List.mem_singleton.1 hq
      intro hfq
      exact hfresh p hp f hfq hfp
    · obtain rfl := List.mem_singleton.1 hp
      exact hfresh q hq f hfp
    · obtain rfl := List.mem_singleton.1 hp
      obtain rfl := List.mem_singleton.1 hq
      exact absurd rfl hne
  case id_lt =>
    intro p hp
    rw [hb] at hp
    rcases List.mem_append.1 hp with hp | hp
    · exact Nat.lt_succ_of_lt (h.id_lt p hp)
    · obtain rfl := List.mem_singleton.1 hp
      exact Nat.lt_succ_self _
  case keys_nodup =>
    rw [hb, List.map_append, List.nodup_append]
    refine ⟨h.keys_nodup, List.nodup_singleton _, ?_⟩
    intro a ha hmem
    simp only [List.map_cons, List.map_nil, List.mem_singleton] at hmem
    subst hmem
    obtain ⟨q, hq, hqe⟩ := List.mem_map.1 ha
    exact absurd (hqe ▸ h.id_lt q hq) (lt_irrefl _)

lemma inv_register_compressed {s : TrackerState} (h : Inv s) {id : ℕ} {c r : ℤ}
    (hst : statusOf s id = none ∨ statusOf s id = some Status.compressing) :
    Inv (register_compressed s id c r) := by
  cases hl : List.lookup id s.batches with
  | none =>
    rw [register_compressed, hl]
    exact h
  | some b =>
    have hbst : b.status = Status.compressing := by
      rcases hst with hst | hst <;> rw [statusOf, hl] at hst
      · exact absurd hst (by simp)
      · simpa using hst
    have hmem : (id, b) ∈ s.batches := mem_of_lookup_eq_some hl
    rw [register_compressed_eq hl]
    constructor
    case sec_sub =>
      exact fun x hx => Finset.mem_union_left _ (h.sec_sub hx)
    case comp_sub =>
      intro x hx
      rcases Finset.mem_union.1 hx with hx | hx
      · exact h.comp_sub hx
      · exact h.batch_baked (id, b) hmem x (List.mem_toFinset.1 hx)
    case batch_baked =>
      intro p hp f hf
      obtain ⟨p0, hp0, hpk, hpf⟩ := companion_in_updateBatch hl hp rfl
      exact h.batch_baked p0 hp0 f (hpf.symm ▸ hf)
    case upl_comp =>
      intro p hp hpu f hf
      rcases mem_updateBatch hp with ⟨q, hq, ⟨hq1, rfl⟩ | ⟨hq1, rfl⟩⟩
      · exact Finset.mem_union_right _ (List.mem_toFinset.2 hf)
      · exact Finset.mem_union_left _ (h.upl_comp p hq hpu f hf)
    case sec_cov =>
      intro f hf
      obtain ⟨q, hq, hqc, hqf⟩ := h.sec_cov f hf
      have hqk : q.1 ≠ id :=
        key_ne_of_status_ne h.keys_nodup hl hq
          (by rw [hqc, hbst]; exact fun hh => Status.noConfusion hh)
      exact ⟨q, mem_updateBatch_of_ne hq hqk, hqc, hqf⟩
    case disj =>
      intro p hp q hq hne f hfp
      obtain ⟨p0, hp0, hpk, hpf⟩ := companion_in_updateBatch hl hp rfl
      obtain ⟨q0, hq0, hqk, hqf⟩ := companion_in_updateBatch hl hq rfl
      have hne0 : p0.1 ≠ q0.1 := by rw [hpk, hqk]; exact hne
      intro hfq
      exact h.disj p0 hp0 q0 hq0 hne0 f (hpf.symm ▸ hfp) (hqf.symm ▸ hfq)
    case id_lt =>
      intro p hp
      have h1 := List.mem_map_of_mem Prod.fst hp
      rw [keys_updateBatch] at h1
      obtain ⟨q, hq, hqe⟩ := List.mem_map.1 h1
      exact hqe ▸ h.id_lt q hq
    case keys_nodup =>
      rw [keys_updateBatch]
      exact h.keys_nodup

lemma inv_register_secured {s : TrackerState} (h : Inv s) {id : ℕ} {key : String} {dur : ℚ}
    (hst : statusOf s id = none ∨ statusOf s id = some Status.uploading) :
    Inv (register_secured s id key dur) := by
  cases hl : List.lookup id s.batches with
  | none =>
    rw [register_secured, hl]
    exact h
  | some b =>
    have hbst : b.status = Status.uploading := by
      rcases hst with hst | hst <;> rw [statusOf, hl] at hst
      · exact absurd hst (by simp)
      · simpa using hst
    have hmem : (id, b) ∈ s.batches := mem_of_lookup_eq_some hl
    rw [register_secured_eq hl]
    constructor
    case sec_sub =>
      intro x hx
      rcases Finset.mem_union.1 hx with hx | hx
      · exact h.sec_sub hx
      · exact h.upl_comp (id, b) hmem hbst x (List.mem_toFinset.1 hx)
    case comp_sub => exact h.comp_sub
    case batch_baked =>
      intro p hp f hf
      obtain ⟨p0, hp0, hpk, hpf⟩ := companion_in_updateBatch hl hp rfl
      exact h.batch_baked p0 hp0 f (hpf.symm ▸ hf)
    case upl_comp =>
      intro p hp hpu f hf
      rcases mem_updateBatch hp with ⟨q, hq, ⟨hq1, rfl⟩ | ⟨hq1, rfl⟩⟩
      · exact Status.noConfusion hpu
      · exact h.upl_comp p hq hpu f hf
    case sec_cov =>
      intro f hf
      rcases Finset.mem_union.1 hf with hf | hf
      · obtain ⟨q, hq, hqc, hqf⟩ := h.sec_cov f hf
        have hqk : q.1 ≠ id :=
          key_ne_of_status_ne h.keys_nodup hl hq
            (by rw [hqc, hbst]; exact fun hh => Status.noConfusion hh)
        exact ⟨q, mem_updateBatch_of_ne hq hqk, hqc, hqf⟩
      · exact ⟨(id, { b with r2_key := key, upload_duration := dur, status := Status.confirmed }),
          mem_updateBatch_self hmem rfl, rfl, List.mem_toFinset.1 hf⟩
    case disj =>
      intro p hp q hq hne f hfp
      obtain ⟨p0, hp0, hpk, hpf⟩ := companion_in_updateBatch hl hp rfl
      obtain ⟨q0, hq0, hqk, hqf⟩ := companion_in_updateBatch hl hq rfl
      have hne0 : p0.1 ≠ q0.1 := by rw [hpk, hqk]; exact hne
      intro hfq
      exact h.disj p0 hp0 q0 hq0 hne0 f (hpf.symm ▸ hfp) (hqf.symm ▸ hfq)
    case id_lt =>
      intro p hp
      have h1 := List.mem_map_of_mem Prod.fst hp
      rw [keys_updateBatch] at h1
      obtain ⟨q, hq, hqe⟩ := List.mem_map.1 h1
      exact hqe ▸ h.id_lt q hq
    case keys_nodup =>
      rw [keys_updateBatch]
      exact h.keys_nodup

lemma inv_register_batch_failed {s : TrackerState} (h : Inv s) {id : ℕ}
    (hst : statusOf s id = none ∨ statusOf s id = some Status.uploading) :
    Inv (register_batch_failed s id) := by
  cases hl : List.lookup id s.batches with
  | none =>
    rw [register_batch_failed, hl]
    exact h
  | some b =>
    have hbst : b.status = Status.uploading := by
      rcases hst with hst | hst <;> rw [statusOf, hl] at hst
      · exact absurd hst (by simp)
      · simpa using hst
    have hmem : (id, b) ∈ s.batches := mem_of_lookup_eq_some hl
    have hsec_not_b : ∀ f ∈ s.secured_frames, f ∉ b.frames := by
      intro f hf
      obtain ⟨q, hq, hqc, hqf⟩ := h.sec_cov f hf
      have hqk : q.1 ≠ id :=
        key_ne_of_status_ne h.keys_nodup hl hq
          (by rw [hqc, hbst]; exact fun hh => Status.noConfusion hh)
      exact h.disj q hq (id, b) hmem hqk f hqf
    rw [register_batch_failed_eq hl]
    constructor
    case sec_sub =>
      intro x hx
      exact Finset.mem_sdiff.2
        ⟨h.sec_sub hx, fun hb2 => hsec_not_b x hx (List.mem_toFinset.1 hb2)⟩
    case comp_sub =>
      intro x hx
      exact h.comp_sub (Finset.mem_sdiff.1 hx).1
    case batch_baked =>
      intro p hp f hf
      obtain ⟨p0, hp0, hpk, hpf⟩ := companion_in_updateBatch hl hp rfl
      exact h.batch_baked p0 hp0 f (hpf.symm ▸ hf)
    case upl_comp =>
      intro p hp hpu f hf
      rcases mem_updateBatch hp with ⟨q, hq, ⟨hq1, rfl⟩ | ⟨hq1, rfl⟩⟩
      · exact Status.noConfusion hpu
      · refine Finset.mem_sdiff.2 ⟨h.upl_comp p hq hpu f hf, fun hb2 => ?_⟩
        exact h.disj p hq (id, b) hmem hq1 f hf (List.mem_toFinset.1 hb2)
    case sec_cov =>
      intro f hf
      obtain ⟨q, hq, hqc, hqf⟩ := h.sec_cov f hf
      have hqk : q.1 ≠ id :=
        key_ne_of_status_ne h.keys_nodup hl hq
          (by rw [hqc, hbst]; exact fun hh => Status.noConfusion hh)
      exact ⟨q, mem_updateBatch_of_ne hq hqk, hqc, hqf⟩
    case disj =>
      intro p hp q hq hne f hfp
      obtain ⟨p0, hp0, hpk, hpf⟩ := companion_in_updateBatch hl hp rfl
      obtain ⟨q0, hq0, hqk, hqf⟩ := companion_in_updateBatch hl hq rfl
      have hne0 : p0.1 ≠ q0.1 := by rw [hpk, hqk]; exact hne
      intro hfq
      exact h.disj p0 hp0 q0 hq0 hne0 f (hpf.symm ▸ hfp) (hqf.symm ▸ hfq)
    case id_lt =>
      intro p hp
      have h1 := List.mem_map_of_mem Prod.fst hp
      rw [keys_updateBatch] at h1
      obtain ⟨q, hq, hqe⟩ := List.mem_map.1 h1
      exact hqe ▸ h.id_lt q hq
    case keys_nodup =>
      rw [keys_updateBatch]
      exact h.keys_nodup

lemma inv_allowed_step {s : TrackerState} (h : Inv s) {op : Op}
    (ha : allowedOp s op = true) : Inv (step s op) := by
  cases op with
  | regBakedFrame f now => exact inv_register_baked_frame h f now
  | createBatch frames =>
    simp only [allowedOp, Bool.and_eq_true, List.all_eq_true, decide_eq_true_eq] at ha
    exact inv_create_batch h ha.1 ha.2
  | regCompressed id c r =>
    simp only [allowedOp, decide_eq_true_eq] at ha
    exact inv_register_compressed h ha
  | regSecured id key dur =>
    simp only [allowedOp, decide_eq_true_eq] at ha
    exact inv_register_secured h ha
  | regBatchFailed id =>
    simp only [allowedOp, decide_eq_true_eq] at ha
    exact inv_register_batch_failed h ha

lemma inv_run : ∀ (ops : List Op) {s : TrackerState}, Inv s → allowedTrace s ops = true →
    Inv (run s ops) := by
  intro ops
  induction ops with
  | nil => intro s h _; exact h
  | cons op rest ih =>
    intro s h ht
    rw [allowedTrace, Bool.and_eq_true] at ht
    exact ih (inv_allowed_step h ht.1) ht.2

lemma inv_init_tracker (total : ℤ) (t0 : ℚ) : Inv (init_tracker total ∅ t0) := by
  constructor
  case sec_sub => exact Finset.empty_subset _
  case comp_sub => exact Finset.empty_subset _
  case batch_baked => intro p hp; exact absurd hp (List.not_mem_nil p)
  case upl_comp => intro p hp; exact absurd hp (List.not_mem_nil p)
  case sec_cov => intro f hf; exact absurd hf (Finset.not_mem_empty f)
  case disj => intro p hp; exact absurd hp (List.not_mem_nil p)
  case id_lt => intro p hp; exact absurd hp (List.not_mem_nil p)
  case keys_nodup => exact List.nodup_nil

/-- C1 (amended): starting from a tracker with empty `already_secured`
seeding, `Secured ⊆ Compressed ⊆ Baked` holds after every disciplined
operation sequence — one in which batches are created only from
already-baked frames covered by no existing batch, compression reports
target `compressing` batches, and secure/failure reports target
`uploading` batches.  As literally stated the claim fails: seeding
`already_secured` (explicitly included in the claim) puts frames in
`Secured` that are in neither `Compressed` nor `Baked`. -/
theorem ledger_inclusion_chain_of_disciplined_ops (total : ℤ) (t0 : ℚ) (ops : List Op)
    (h : allowedTrace (init_tracker total ∅ t0) ops = true) :
    (run (init_tracker total ∅ t0) ops).secured_frames ⊆
        (run (init_tracker total ∅ t0) ops).compressed_frames ∧
      (run (init_tracker total ∅ t0) ops).compressed_frames ⊆
        (run (init_tracker total ∅ t0) ops).baked_frames :=
  ⟨(inv_run ops (inv_init_tracker total t0) h).sec_sub,
    (inv_run ops (inv_init_tracker total t0) h).comp_sub⟩

/-- Counterexample to C1 as stated: a tracker seeded with
`already_secured = {1}` starts with frame 1 in `secured_frames` but
not in `compressed_frames`, so `Secured ⊆ Compressed` already fails
at the initial observable moment. -/
theorem seeded_tracker_breaks_secured_subset_compressed :
    ¬ (init_tracker 250 {1} 0).secured_frames ⊆
        (init_tracker 250 {1} 0).compressed_frames := by
  decide

/-- A concrete disciplined trace: bake frame 1, batch it, report its
compression, then its confirmed upload. -/
def demo_ops : List Op :=
  [Op.regBakedFrame 1 0, Op.createBatch [1], Op.regCompressed 1 5 10,
    Op.regSecured 1 "k" 2]

/-- Witness for the amended C1 on the concrete trace `demo_ops`. -/
theorem ledger_inclusion_chain_demo :
    (run (init_tracker 9 ∅ 0) demo_ops).secured_frames ⊆
        (run (init_tracker 9 ∅ 0) demo_ops).compressed_frames ∧
      (run (init_tracker 9 ∅ 0) demo_ops).compressed_frames ⊆
        (run (init_tracker 9 ∅ 0) demo_ops).baked_frames :=
  ledger_inclusion_chain_of_disciplined_ops 9 0 demo_ops (by decide)

/-- An operation that neither `register_compressed`-retargets nor
`register_batch_failed`-retargets the batch stored under `id`. -/
def sparesBatch (id : ℕ) : Op → Bool
  | Op.regCompressed j _ _ => decide (j ≠ id)
  | Op.regBatchFailed j => decide (j ≠ id)
  | _ => true

lemma confirmed_stable_step (s : TrackerState) (id : ℕ) (op : Op)
    (hc : statusOf s id = some Status.confirmed) (hs : sparesBatch id op = true) :
    statusOf (step s op) id = some Status.confirmed := by
  obtain ⟨b0, hb0, hb0s⟩ := Option.map_eq_some'.1 hc
  cases op with
  | regBakedFrame f now => exact hc
  | createBatch frames =>
    rw [step, statusOf]
    have : List.lookup id ((create_batch s frames).1).batches = some b0 :=
      lookup_append_left hb0
    rw [this]
    simp [hb0s]
  | regCompressed j c r =>
    have hj : j ≠ id := of_decide_eq_true hs
    rw [step, register_compressed]
    cases hl : List.lookup j s.batches with
    | none => exact hc
    | some b =>
      rw [statusOf]
      rw [show (({ s with
        batches := updateBatch s.batches j
          { b with compressed_size := c, raw_size := r, status := Status.uploading }
        compressed_frames := s.compressed_frames ∪ b.frames.toFinset
        compression_ratio := if 0 < r ∧ 0 < c then (r : ℚ) / (c : ℚ)
          else s.compression_ratio } : TrackerState)).batches =
        updateBatch s.batches j
          { b with compressed_size := c, raw_size := r, status := Status.uploading } from rfl]
      rw [lookup_updateBatch_ne hj, hb0]
      simp [hb0s]
  | regSecured j key dur =>
    rw [step, register_secured]
    cases hl : List.lookup j s.batches with
    | none => exact hc
    | some b =>
      by_cases hj : j = id
      · subst hj
        rw [statusOf]
        rw [show (({ s with
          batches := updateBatch s.batches j
            { b with r2_key := key, upload_duration := dur, status := Status.confirmed }
          secured_frames := s.secured_frames ∪ b.frames.toFinset
          upload_speed_bps := if 0 < dur ∧ 0 < b.compressed_size then (b.compressed_size : ℚ) / dur
            else s.upload_speed_bps } : TrackerState)).batches =
          updateBatch s.batches j
            { b with r2_key := key, upload_duration := dur, status := Status.confirmed } from rfl]
        rw [lookup_updateBatch_self hl]
        rfl
      · rw [statusOf]
        rw [show (({ s with
          batches := updateBatch s.batches j
            { b with r2_key := key, upload_duration := dur, status := Status.confirmed }
          secured_frames := s.secured_frames ∪ b.frames.toFinset
          upload_speed_bps := if 0 < dur ∧ 0 < b.compressed_size then (b.compressed_size : ℚ) / dur
            else s.upload_speed_bps } : TrackerState)).batches =
          updateBatch s.batches j
            { b with r2_key := key, upload_duration := dur, status := Status.confirmed } from rfl]
        rw [lookup_updateBatch_ne hj, hb0]
        simp [hb0s]
  | regBatchFailed j =>
    have hj : j ≠ id := of_decide_eq_true hs
    rw [step, register_batch_failed]
    cases hl : List.lookup j s.batches with
    | none => exact hc
    | some b =>
      rw [statusOf]
      rw [show (({ s with
        batches := updateBatch s.batches j { b with status := Status.failed }
        compressed_frames := s.compressed_frames \ b.frames.toFinset } : TrackerState)).batches =
        updateBatch s.batches j { b with status := Status.failed } from rfl]
      rw [lookup_updateBatch_ne hj, hb0]
      simp [hb0s]

/-- C2 (amended): once a batch's status is `confirmed` it stays
`confirmed` under every subsequent `register_baked_frame`,
`create_batch` and `register_secured` operation, and under
`register_compressed` / `register_batch_failed` operations whose
batch id differs from this batch's; the claim's unrestricted form
fails because those two mutators called with the batch's own id do
change the status. -/
theorem confirmed_status_stable_under_nontargeting_ops (s : TrackerState) (id : ℕ)
    (ops : List Op) (hc : statusOf s id = some Status.confirmed)
    (hops : ∀ op ∈ ops, sparesBatch id op = true) :
    statusOf (run s ops) id = some Status.confirmed := by
  induction ops generalizing s with
  | nil => exact hc
  | cons op rest ih =>
    have h1 : statusOf (step s op) id = some Status.confirmed :=
      confirmed_stable_step s id op hc (hops op (List.mem_cons_self op rest))
    exact ih (step s op) h1 (fun o ho => hops o (List.mem_cons_of_mem op ho))

/-- Counterexample to C2 as stated: after batch 1 is confirmed, a
`register_batch_failed 1` call moves its status from `confirmed` to
`failed`. -/
theorem confirmed_batch_fails_after_register_batch_failed :
    statusOf (run (init_tracker 9 ∅ 0)
        [Op.createBatch [1], Op.regCompressed 1 5 10, Op.regSecured 1 "k" 2]) 1 =
        some Status.confirmed ∧
      statusOf (run (init_tracker 9 ∅ 0)
        [Op.createBatch [1], Op.regCompressed 1 5 10, Op.regSecured 1 "k" 2,
          Op.regBatchFailed 1]) 1 = some Status.failed := by
  constructor <;> rfl

/-- Witness for the amended C2: batch 1, once confirmed, keeps status
`confirmed` across a failure of batch 2, a compression report for
batch 3 and a repeated `register_secured` for batch 1 itself. -/
theorem confirmed_status_stable_demo :
    statusOf (run (run (init_tracker 9 ∅ 0)
        [Op.createBatch [1], Op.regCompressed 1 5 10, Op.regSecured 1 "k" 2])
        [Op.regBatchFailed 2, Op.regCompressed 3 1 1, Op.regSecured 1 "k2" 1]) 1 =
      some Status.confirmed :=
  confirmed_status_stable_under_nontargeting_ops
    (run (init_tracker 9 ∅ 0)
      [Op.createBatch [1], Op.regCompressed 1 5 10, Op.regSecured 1 "k" 2]) 1
    [Op.regBatchFailed 2, Op.regCompressed 3 1 1, Op.regSecured 1 "k2" 1]
    (by rfl) (by decide)

/-- The sequence of batch ids handed out by the `create_batch` calls
inside an operation sequence. -/
def assignedIds (s : TrackerState) : List Op → List ℕ
  | [] => []
  | op :: ops =>
    match op with
    | Op.createBatch _ => s.next_batch_id :: assignedIds (step s op) ops
    | _ => assignedIds (step s op) ops

/-- Number of `create_batch` calls in an operation sequence. -/
def countCreates : List Op → ℕ
  | [] => 0
  | Op.createBatch _ :: ops => countCreates ops + 1
  | _ :: ops => countCreates ops

lemma next_batch_id_step_non_create (s : TrackerState) (op : Op)
    (h : ∀ frames, op ≠ Op.createBatch frames) :
    (step s op).next_batch_id = s.next_batch_id := by
  cases op with
  | regBakedFrame f now => rfl
  | createBatch frames => exact absurd rfl (h frames)
  | regCompressed id c r =>
    rw [step, register_compressed]
    cases List.lookup id s.batches <;> rfl
  | regSecured id key dur =>
    rw [step, register_secured]
    cases List.lookup id s.batches <;> rfl
  | regBatchFailed id =>
    rw [step, register_batch_failed]
    cases List.lookup id s.batches <;> rfl

lemma assignedIds_eq_range : ∀ (ops : List Op) (s : TrackerState),
    assignedIds s ops = List.range' s.next_batch_id (countCreates ops) := by
  intro ops
  induction ops with
  | nil => intro s; rfl
  | cons op rest ih =>
    intro s
    cases op with
    | createBatch frames =>
      simp only [assignedIds, countCreates]
      rw [ih]
      rfl
    | regBakedFrame f now =>
      simp only [assignedIds, countCreates]
      rw [ih, next_batch_id_step_non_create s _ (fun frames h => Op.noConfusion h)]
    | regCompressed id c r =>
      simp only [assignedIds, countCreates]
      rw [ih, next_batch_id_step_non_create s _ (fun frames h => Op.noConfusion h)]
    | regSecured id key dur =>
      simp only [assignedIds, countCreates]
      rw [ih, next_batch_id_step_non_create s _ (fun frames h => Op.noConfusion h)]
    | regBatchFailed id =>
      simp only [assignedIds, countCreates]
      rw [ih, next_batch_id_step_non_create s _ (fun frames h => Op.noConfusion h)]

/-- C8: on a fresh tracker, the ids handed out by `create_batch` over
any operation sequence are exactly `1, 2, 3, …` in creation order —
so they start at 1, are strictly increasing, and are never reused —
and the record returned by `create_batch` carries exactly the
allocated id. -/
theorem batch_ids_monotonic_from_one (total : ℤ) (already : Finset ℤ) (t0 : ℚ)
    (ops : List Op) :
    assignedIds (init_tracker total already t0) ops = List.range' 1 (countCreates ops) ∧
      ∀ (s : TrackerState) (frames : List ℤ),
        ((create_batch s frames).2).batch_id = s.next_batch_id :=
  ⟨assignedIds_eq_range ops (init_tracker total already t0), fun _ _ => rfl⟩

end Calculations
